import Mathlib

/-!
Shallow embedding of the proton node layer (`src/node.go`): the event loop
(`Start`), the storage/persist step (`saveToStorage`), the message router
(`send`), snapshot handling (`processSnapshot`), commit application
(`process`), and the membership operations (`JoinCluster`, `RegisterNode`).

Conventions of the embedding:
* Machine integers (uint64 node ids) are modelled as `Nat`; no arithmetic
  overflows in the modelled code paths.
* Go's `(value, error)` returns become `Option`/`Except`.
* Side effects on the external consensus engine (`Tick`, `Step`, `Advance`,
  `ReportUnreachable`, `ApplyConfChange`) and on the network are recorded as
  trace actions, so temporal ordering claims become statements about traces.
* `log.Fatal` and `panic` terminate the node; they are modelled by the
  `Death` error of the event-loop step.
-/

namespace Proton

/-- A decoded key/value pair, as in the `Pair` protobuf message carried in
normal entries (key: text, value: bytes; both modelled as byte lists). -/
structure Pair where
  key : List Nat
  value : List Nat
  deriving DecidableEq, Repr

/-- Modelled from the spec: the committed-entry wire payload (§6) is "a fixed,
versioned serialization understood identically by every replica"; the actual
protobuf marshalling code (`proton.pb.go`, `proto.Unmarshal`) is not under
`src/`.  We model it as a length-prefixed encoding: first byte is the key
length, then the key bytes, then the value bytes.  Decoding fails (as
`proto.Unmarshal` can) on malformed input. -/
def decodePair (data : List Nat) : Option Pair :=
  match data with
  | [] => none
  | n :: rest =>
      if n ≤ rest.length then some ⟨rest.take n, rest.drop n⟩ else none

/-- Modelled from the spec: the inverse serialization used by proposers. -/
def encodePair (p : Pair) : List Nat :=
  p.key.length :: (p.key ++ p.value)

/-- Entry types used by the event loop (`raftpb.EntryNormal`,
`raftpb.EntryConfChange`). -/
inductive EntryType where
  | normal
  | confChange
  deriving DecidableEq, Repr

/-- A raft log entry as consumed by `process`: its type and its data payload
(`entry.Data`, which can be Go-`nil`, modelled by `none`). -/
structure Entry where
  type : EntryType
  data : Option (List Nat)
  deriving DecidableEq, Repr

/-- The Application State Store (`Node.PStore : map[string]string`), modelled
as an association list with at most one binding per key; `storeSet` is Go map
assignment `m[k] = v`. -/
abbrev Store := List (List Nat × List Nat)

/-- Go map assignment `m[k] = v`: overwrite in place, or append. -/
def storeSet (s : Store) (k v : List Nat) : Store :=
  match s with
  | [] => [(k, v)]
  | (k', v') :: rest =>
      if k' = k then (k, v) :: rest else (k', v') :: storeSet rest k v

/-- Go map lookup `m[k]`. -/
def storeGet (s : Store) (k : List Nat) : Option (List Nat) :=
  match s with
  | [] => none
  | (k', v') :: rest => if k' = k then some v' else storeGet rest k

/-- The fresh (empty) Application State Store, `make(map[string]string)`. -/
def emptyStore : Store := []

/-- A node dies either by `panic` in `processSnapshot` or by `log.Fatal` in
`process` when a committed normal entry fails to decode. -/
inductive Death where
  | snapshotPanic
  | decodeFatal
  deriving DecidableEq, Repr

/-- Embeds `Node.process` (node.go:318-343), restricted to its effect on the
Application State Store: for a normal entry with non-nil data, unmarshal the
pair (a failure is `log.Fatal`, i.e. node death) and assign
`PStore[pair.Key] = pair.Value`.  The entry's id/debug logging and the
event-channel/handler notifications do not touch the store; the logging
parameters are kept to show the result is independent of them. -/
def process (nid : Nat) (debug : Bool) (s : Store) (e : Entry) : Except Death Store :=
  match e.type, e.data with
  | .normal, some d =>
      match decodePair d with
      | none => .error .decodeFatal
      | some pair => .ok (storeSet s pair.key pair.value)
  | _, _ => .ok s

/-- Applying a sequence of committed entries in order via `process`,
stopping at the first fatal decode (`log.Fatal` kills the process, so no
later entry is reached). -/
def applyEntries (nid : Nat) (debug : Bool) (s : Store) : List Entry → Except Death Store
  | [] => .ok s
  | e :: es =>
      match process nid debug s e with
      | .error d => .error d
      | .ok s' => applyEntries nid debug s' es

/-- Helper: a normal entry carrying the encoded pair `(k, v)`. -/
def mkNormalEntry (k v : List Nat) : Entry :=
  ⟨.normal, some (encodePair ⟨k, v⟩)⟩

/-- An entry `process` can apply without dying: either it is not a normal
entry with data, or its payload decodes. -/
def entryOk (e : Entry) : Bool :=
  match e.type, e.data with
  | .normal, some d => (decodePair d).isSome
  | _, _ => true

/-- A network client handle (`*Proton`), opaque; `none` stands for Go `nil`
(the self placeholder has no live handle). -/
abbrev Client := Nat

/-- A registered peer: one entry of `Cluster.Nodes` (a `*Node` record holding
the fields the membership/router code uses: `ID`, `Addr`, `Client`). -/
structure Peer where
  id : Nat
  addr : String
  client : Option Client
  deriving DecidableEq, Repr

/-- Modelled from the spec: the `Cluster` type lives outside `src/`; per §3 it
is a "mapping from peer identity (unique) to Peer".  We model the map as an
association list keyed by `Peer.id`. -/
abbrev Registry := List Peer

/-- Map lookup `n.Cluster.Nodes[id]`. -/
def lookupPeer (reg : Registry) (i : Nat) : Option Peer :=
  reg.find? (fun p => p.id == i)

/-- Modelled from the spec: `Cluster.RemoveNode(id)` — delete the entry with
the given identity from the map. -/
def removePeer (reg : Registry) (i : Nat) : Registry :=
  reg.filter (fun p => !(p.id == i))

/-- Modelled from the spec: `Cluster.AddNodes(node)` — map insert keyed by
identity (at most one entry per identity). -/
def addPeer (reg : Registry) (p : Peer) : Registry :=
  p :: removePeer reg p.id

/-- An outbound consensus message (`raftpb.Message`); only the destination
field `To` (here `dest`) is inspected by the router; `tag` keeps messages distinguishable. -/
structure Msg where
  dest : Nat
  tag : Nat
  deriving DecidableEq, Repr

/-- Observable actions of one event-loop iteration, in emission order.  Engine
calls (`Step`, `ReportUnreachable`, `ApplyConfChange`, `Advance`), log-store
writes, and network sends are all recorded here. -/
inductive Action where
  | appendEntries (es : List Entry)
  | setHardState (hs : Nat)
  | applyLogSnapshot (sn : Nat)
  | stepLocal (m : Msg)
  | remoteSend (peer : Nat) (m : Msg)
  | closeConn (peer : Nat)
  | reportUnreachable (peer : Nat)
  | removeNode (peer : Nat)
  | panicSnapshot
  | applyEntry (e : Entry)
  | applyConfChange (e : Entry)
  | fatalDecode (e : Entry)
  | advance
  deriving DecidableEq, Repr

abbrev Trace := List Action

/-- Phase classification for the batch-ordering claim: persistence actions. -/
def isPersist : Action → Bool
  | .appendEntries _ | .setHardState _ | .applyLogSnapshot _ => true
  | _ => false

/-- Phase classification: message-dispatch actions (the router's work,
including per-peer eviction on a transport error). -/
def isDispatch : Action → Bool
  | .stepLocal _ | .remoteSend _ _ | .closeConn _ | .reportUnreachable _
  | .removeNode _ => true
  | _ => false

/-- Phase classification: commit-application actions. -/
def isApply : Action → Bool
  | .applyEntry _ | .applyConfChange _ => true
  | _ => false

/-- The committed entries a trace applies, in order. -/
def appliedEntries (t : Trace) : List Entry :=
  t.filterMap (fun a => match a with | .applyEntry e => some e | _ => none)

/-- The durable log store (`raft.MemoryStorage`), to the extent the loop
drives it: appended entries, last persisted hard state, last installed
snapshot (hard state and snapshot are opaque `Nat` payloads). -/
structure LogStore where
  entries : List Entry
  hard : Option Nat
  snap : Option Nat
  deriving DecidableEq, Repr

/-- The node state the modelled code reads and writes. -/
structure NodeState where
  id : Nat
  debug : Bool
  log : LogStore
  registry : Registry
  pstore : Store
  deriving DecidableEq

/-- One output batch of the consensus engine (`raft.Ready`): hard state and
snapshot are `none` when empty (`raft.IsEmptyHardState` / `raft.IsEmptySnap`). -/
structure Ready where
  hardState : Option Nat
  entries : List Entry
  snapshot : Option Nat
  messages : List Msg
  committedEntries : List Entry
  deriving DecidableEq

/-- Embeds `Node.saveToStorage` (node.go:273-283): append the batch's entries, then
persist the hard state when non-empty, then install the snapshot into the log
store when non-empty. -/
def saveToStorage (st : NodeState) (rd : Ready) : NodeState × Trace :=
  let log1 := { st.log with entries := st.log.entries ++ rd.entries }
  let t1 : Trace := [.appendEntries rd.entries]
  match rd.hardState, rd.snapshot with
  | none, none => ({ st with log := log1 }, t1)
  | some h, none =>
      ({ st with log := { log1 with hard := some h } }, t1 ++ [.setHardState h])
  | none, some s =>
      ({ st with log := { log1 with snap := some s } }, t1 ++ [.applyLogSnapshot s])
  | some h, some s =>
      ({ st with log := { log1 with hard := some h, snap := some s } },
       t1 ++ [.setHardState h, .applyLogSnapshot s])

/-- Embeds `Node.send` (node.go:286-307), one message: a message to self goes to the
local `Step`; an unknown destination is dropped; otherwise the peer's remote
`Send` is invoked (outcome given by the `sendOk` environment) and a transport
error closes the connection, reports the peer unreachable and removes it from
the registry. -/
def sendOne (sendOk : Nat → Msg → Bool) (st : NodeState) (m : Msg) :
    NodeState × Trace :=
  if m.dest = st.id then (st, [.stepLocal m])
  else
    match lookupPeer st.registry m.dest with
    | none => (st, [])
    | some node =>
        if sendOk node.id m then (st, [.remoteSend node.id m])
        else
          ({ st with registry := removePeer st.registry node.id },
           [.remoteSend node.id m, .closeConn node.id,
            .reportUnreachable node.id, .removeNode node.id])

/-- Embeds `Node.send` over the whole batch of outbound messages, in order. -/
def sendAll (sendOk : Nat → Msg → Bool) (st : NodeState) :
    List Msg → NodeState × Trace
  | [] => (st, [])
  | m :: ms =>
      let s1 := sendOne sendOk st m
      let s2 := sendAll sendOk s1.1 ms
      (s2.1, s1.2 ++ s2.2)

/-- The `for _, entry := range rd.CommittedEntries` body of `Start`
(node.go:135-142): `process` each entry in order (`log.Fatal` on a decode
failure aborts the node, so later entries are not reached); a conf-change
entry is additionally unmarshalled and handed to `ApplyConfChange`. -/
def processCommitted (st : NodeState) : List Entry → Except Death NodeState × Trace
  | [] => (.ok st, [])
  | e :: es =>
      match process st.id st.debug st.pstore e with
      | .error d => (.error d, [.fatalDecode e])
      | .ok ps =>
          let confT : Trace :=
            if e.type = .confChange then [.applyConfChange e] else []
          let rest := processCommitted { st with pstore := ps } es
          (rest.1, .applyEntry e :: (confT ++ rest.2))

/-- The `case rd := <-n.Ready()` arm of `Start` (node.go:129-143): persist via
`saveToStorage`, dispatch via `send`, then — if the snapshot is non-empty —
`processSnapshot`, which is the unimplemented stub that panics
(node.go:311-314); otherwise apply the committed entries and `Advance`. -/
def handleReady (sendOk : Nat → Msg → Bool) (st : NodeState) (rd : Ready) :
    Except Death NodeState × Trace :=
  let s1 := saveToStorage st rd
  let s2 := sendAll sendOk s1.1 rd.messages
  match rd.snapshot with
  | some _ => (.error .snapshotPanic, s1.2 ++ s2.2 ++ [.panicSnapshot])
  | none =>
      let pc := processCommitted s2.1 rd.committedEntries
      match pc.1 with
      | .error d => (.error d, s1.2 ++ s2.2 ++ pc.2)
      | .ok st3 => (.ok st3, s1.2 ++ s2.2 ++ pc.2 ++ [.advance])

/-- The event loop over a stream of ready batches: each batch is fully handled
(ending in `Advance`) before the next one is taken from the channel; a node
death stops the loop. -/
def runAll (sendOk : Nat → Msg → Bool) (st : NodeState) :
    List Ready → Except Death NodeState × Trace
  | [] => (.ok st, [])
  | rd :: rds =>
      let h := handleReady sendOk st rd
      match h.1 with
      | .ok st1 =>
          let rest := runAll sendOk st1 rds
          (rest.1, h.2 ++ rest.2)
      | .error d => (.error d, h.2)

deriving instance DecidableEq for Except

/-- Errors of `RegisterNode`: `ErrConnectionRefused` (node.go:19). -/
inductive RegErr where
  | connRefused
  deriving DecidableEq, Repr

/-- The `err.Error()` strings for the error values the membership code returns. -/
def regErrMsg : RegErr → String
  | .connRefused => "Connection refused to the node"

/-- The retry loop of `RegisterNode` (node.go:352-359):
`for i := 1; i <= MaxRetryTime; i++`, each iteration overwriting the
`client, err` pair with the outcome of `GetProtonClient` (the `attempt`
environment, `none` = error); the loop returns early — with
`ErrConnectionRefused` — only when the attempt at `i == MaxRetryTime` fails.
`fuel` counts the remaining iterations (`maxR + 1 - i`); the second result
component counts the attempts performed. -/
def regLoopAux (attempt : Nat → Option Client) (maxR : Nat) :
    Nat → Option Client → Nat → Except RegErr (Option Client) × Nat
  | _, client, 0 => (.ok client, 0)
  | i, _, fuel + 1 =>
      match attempt i with
      | none =>
          if i = maxR then (.error .connRefused, 1)
          else
            let r := regLoopAux attempt maxR (i + 1) none fuel
            (r.1, r.2 + 1)
      | some c =>
          let r := regLoopAux attempt maxR (i + 1) (some c) fuel
          (r.1, r.2 + 1)

/-- The whole retry loop, started at `i = 1` with `client = nil`. -/
def regLoop (attempt : Nat → Option Client) (maxR : Nat) :
    Except RegErr (Option Client) × Nat :=
  regLoopAux attempt maxR 1 none maxR

/-- Identity and address of a node (`NodeInfo` protobuf message). -/
structure NodeInfo where
  id : Nat
  addr : String
  deriving DecidableEq, Repr

/-- Result of `RegisterNode`: the returned error (or the client variable it
keeps on success), the resulting registry, and the number of connection
attempts performed. -/
structure RegResult where
  outcome : Except RegErr (Option Client)
  registry : Registry
  attempts : Nat
  deriving DecidableEq, Repr

/-- Embeds `Node.RegisterNode` (node.go:346-385): run the bounded retry loop against
`GetProtonClient` (the `attempt` environment; `MaxRetryTime` is the `maxR`
parameter — the constant itself is declared outside `src/`); on failure return
`ErrConnectionRefused` and leave the registry untouched; on success insert the
peer, carrying the `client` variable as the loop left it, into the Cluster
registry via `AddNodes`.  (The spawned connection-health monitor goroutine is
outside this step's semantics.) -/
def registerNode (reg : Registry) (attempt : Nat → Option Client) (maxR : Nat)
    (info : NodeInfo) : RegResult :=
  match regLoop attempt maxR with
  | (.error e, n) => ⟨.error e, reg, n⟩
  | (.ok client, n) => ⟨.ok client, addPeer reg ⟨info.id, info.addr, client⟩, n⟩

/-- Outcome of one remote `AddNode` RPC as seen by `JoinCluster`
(node.go:174): the transport error flag and the response's
`Success`/`Error` fields (the remote handler, node.go:201-214, always
produces a response). -/
structure AddRes where
  err : Bool
  success : Bool
  errorMsg : String
  deriving DecidableEq, Repr

/-- The RPC-visible result of `JoinCluster` (`JoinClusterResponse`). -/
structure JoinClusterResponse where
  success : Bool
  error : String
  info : List NodeInfo
  deriving DecidableEq, Repr

/-- Observable steps of a `JoinCluster` call, in order. -/
inductive JoinAction where
  | calledAddNode (peer : Nat)
  | registeredLocally
  deriving DecidableEq, Repr

/-- The `for _, node := range n.Cluster.Nodes` loop of `JoinCluster`
(node.go:163-181): collect every known node's info, skip self, and call the
remote `AddNode` of every other peer (outcome given by the `addNode`
environment), returning that peer's response error as soon as a call errors
or its response reports failure. -/
def jcLoop (selfID : Nat) (addNode : Nat → AddRes) :
    List Peer → List NodeInfo → List NodeInfo × Option String × List JoinAction
  | [], acc => (acc, none, [])
  | p :: ps, acc =>
      let acc1 := acc ++ [⟨p.id, p.addr⟩]
      if p.id = selfID then jcLoop selfID addNode ps acc1
      else
        let r := addNode p.id
        if r.err ∨ ¬ r.success then (acc1, some r.errorMsg, [.calledAddNode p.id])
        else
          let rest := jcLoop selfID addNode ps acc1
          (rest.1, rest.2.1, .calledAddNode p.id :: rest.2.2)

/-- Embeds `Node.JoinCluster` (node.go:160-196): run the peer loop; on a peer
failure return `Success: false` with the peer's response error; otherwise
`RegisterNode` the new member (returning its error message on failure) and
answer with the collected node list.  Results: the RPC response, the registry
afterwards, and the trace of calls. -/
def joinCluster (st : NodeState) (addNode : Nat → AddRes)
    (attempt : Nat → Option Client) (maxR : Nat) (info : NodeInfo) :
    JoinClusterResponse × Registry × List JoinAction :=
  let l := jcLoop st.id addNode st.registry []
  match l.2.1 with
  | some emsg => (⟨false, emsg, []⟩, st.registry, l.2.2)
  | none =>
      let r := registerNode st.registry attempt maxR info
      match r.outcome with
      | .error e => (⟨false, regErrMsg e, []⟩, r.registry, l.2.2)
      | .ok _ => (⟨true, "", l.1⟩, r.registry, l.2.2 ++ [.registeredLocally])

/-! ## Helper lemmas -/

theorem decode_encode (p : Pair) : decodePair (encodePair p) = some p := by
  simp [decodePair, encodePair]

theorem process_param_irrel (nid1 nid2 : Nat) (d1 d2 : Bool) :
    process nid1 d1 = process nid2 d2 := rfl

theorem applyEntries_param_irrel (nid1 nid2 : Nat) (d1 d2 : Bool)
    (es : List Entry) (s : Store) :
    applyEntries nid1 d1 s es = applyEntries nid2 d2 s es := by
  induction es generalizing s with
  | nil => rfl
  | cons e es ih =>
      simp only [applyEntries, ← process_param_irrel nid1 nid2 d1 d2]
      cases process nid1 d1 s e with
      | error d => rfl
      | ok s' => exact ih s'

theorem applyEntries_append (nid : Nat) (dbg : Bool) (s : Store)
    (l1 l2 : List Entry) :
    applyEntries nid dbg s (l1 ++ l2) =
      match applyEntries nid dbg s l1 with
      | .error d => .error d
      | .ok s' => applyEntries nid dbg s' l2 := by
  induction l1 generalizing s with
  | nil => rfl
  | cons e l1 ih =>
      simp only [List.cons_append, applyEntries]
      cases process nid dbg s e with
      | error d => rfl
      | ok s' => exact ih s'

theorem process_undecodable (nid : Nat) (dbg : Bool) (s : Store) (e : Entry)
    (d : List Nat) (hty : e.type = .normal) (hd : e.data = some d)
    (hdec : decodePair d = none) :
    process nid dbg s e = .error .decodeFatal := by
  cases e
  simp_all [process]

/-! ## C2: deterministic replay -/

/-- C2: replaying any sequence of committed normal entries against a fresh
Application State Store is deterministic: two replicas (different node ids,
different debug settings) starting from fresh stores compute the same result,
including the same final key-to-value mapping. -/
theorem replay_deterministic (nid1 nid2 : Nat) (d1 d2 : Bool)
    (s1 s2 : Store) (es : List Entry)
    (h1 : s1 = emptyStore) (h2 : s2 = emptyStore) :
    applyEntries nid1 d1 s1 es = applyEntries nid2 d2 s2 es := by
  subst h1; subst h2
  exact applyEntries_param_irrel nid1 nid2 d1 d2 es emptyStore

theorem replay_deterministic_witness :
    applyEntries 1 true emptyStore [mkNormalEntry [1] [2], mkNormalEntry [3] []]
      = applyEntries 2 false emptyStore [mkNormalEntry [1] [2], mkNormalEntry [3] []] :=
  replay_deterministic 1 2 true false emptyStore emptyStore _ rfl rfl

/-! ## C9: last write wins -/

/-- C9: applying committed normal entries `(k, v1)` then `(k, v2)` to the
fresh Application State Store succeeds and leaves the store with `k` bound
to `v2`. -/
theorem last_write_wins (nid : Nat) (dbg : Bool) (k v1 v2 : List Nat) :
    applyEntries nid dbg emptyStore [mkNormalEntry k v1, mkNormalEntry k v2]
        = .ok [(k, v2)]
      ∧ storeGet [(k, v2)] k = some v2 := by
  constructor
  · simp [applyEntries, process, mkNormalEntry, decode_encode, emptyStore,
      storeSet]
  · simp [storeGet]

/-! ## C8: decode failure is fatal -/

/-- C8: when a committed normal entry's payload fails to decode, the node
dies (`log.Fatal`): `process` on that entry yields no store at all from any
starting store, the replay of the whole sequence is the fatal outcome, and
the entries after the failing one are never reached (the result does not
depend on them). -/
theorem decode_failure_fatal (nid : Nat) (dbg : Bool) (s : Store)
    (pre : List Entry) (e : Entry) (d : List Nat) (post post' : List Entry)
    (hty : e.type = .normal) (hd : e.data = some d)
    (hdec : decodePair d = none)
    (hpre : ∃ s', applyEntries nid dbg s pre = .ok s') :
    (∀ s0 : Store, process nid dbg s0 e = .error .decodeFatal)
      ∧ applyEntries nid dbg s (pre ++ e :: post) = .error .decodeFatal
      ∧ applyEntries nid dbg s (pre ++ e :: post)
          = applyEntries nid dbg s (pre ++ e :: post') := by
  obtain ⟨s', hs'⟩ := hpre
  have hproc : ∀ s0 : Store, process nid dbg s0 e = .error .decodeFatal :=
    fun s0 => process_undecodable nid dbg s0 e d hty hd hdec
  have habort : ∀ post0 : List Entry,
      applyEntries nid dbg s (pre ++ e :: post0) = .error .decodeFatal := by
    intro post0
    rw [applyEntries_append, hs']
    simp [applyEntries, hproc s']
  exact ⟨hproc, habort post, by rw [habort post, habort post']⟩

theorem decode_failure_fatal_witness :
    process 1 false emptyStore ⟨.normal, some [5]⟩ = .error .decodeFatal
      ∧ applyEntries 1 false emptyStore
          ([mkNormalEntry [1] [2]] ++ ⟨.normal, some [5]⟩ :: [mkNormalEntry [3] [4]])
          = .error .decodeFatal
      ∧ applyEntries 1 false emptyStore
          ([mkNormalEntry [1] [2]] ++ ⟨.normal, some [5]⟩ :: [mkNormalEntry [3] [4]])
          = applyEntries 1 false emptyStore
              ([mkNormalEntry [1] [2]] ++ ⟨.normal, some [5]⟩ :: []) := by
  have h := decode_failure_fatal 1 false emptyStore [mkNormalEntry [1] [2]]
    ⟨.normal, some [5]⟩ [5] [mkNormalEntry [3] [4]] [] rfl rfl (by decide)
    ⟨[([1], [2])], by decide⟩
  exact ⟨h.1 emptyStore, h.2.1, h.2.2⟩

/-! ## C5, C10: the RegisterNode retry loop -/

/-- The retry loop always runs to `i = MaxRetryTime` (it never exits early on
success) and its outcome is decided by the final attempt alone. -/
theorem regLoopAux_spec (attempt : Nat → Option Client) (maxR : Nat) :
    ∀ fuel i client, 1 ≤ fuel → i + fuel = maxR + 1 →
      regLoopAux attempt maxR i client fuel =
        (match attempt maxR with
         | none => (.error .connRefused, fuel)
         | some c => (.ok (some c), fuel)) := by
  intro fuel
  induction fuel with
  | zero => intro i client h; omega
  | succ f ih =>
      intro i client _ hsum
      cases f with
      | zero =>
          have hi : i = maxR := by omega
          subst hi
          simp only [regLoopAux]
          cases attempt i with
          | none => simp
          | some c => simp [regLoopAux]
      | succ f' =>
          have hne : i ≠ maxR := by omega
          have hrec : (i + 1) + (f' + 1) = maxR + 1 := by omega
          rw [regLoopAux]
          cases attempt i with
          | none =>
              simp only [if_neg hne]
              rw [ih (i + 1) none (by omega) hrec]
              cases attempt maxR <;> simp
          | some c =>
              dsimp only
              rw [ih (i + 1) (some c) (by omega) hrec]
              cases attempt maxR <;> simp

/-- C5: `RegisterNode` against an always-failing address performs exactly
`MaxRetryTime` connection attempts, returns `ErrConnectionRefused`, and
leaves the Cluster registry untouched (the peer is not inserted). -/
theorem registerNode_bounded_retry (reg : Registry)
    (attempt : Nat → Option Client) (maxR : Nat) (info : NodeInfo)
    (hfail : ∀ i, attempt i = none) (hpos : 1 ≤ maxR) :
    registerNode reg attempt maxR info = ⟨.error .connRefused, reg, maxR⟩ := by
  have h := regLoopAux_spec attempt maxR maxR 1 none hpos (by omega)
  simp only [registerNode, regLoop, h, hfail maxR]

theorem registerNode_bounded_retry_witness :
    registerNode [] (fun _ => none) 3 ⟨2, "b"⟩
      = ⟨.error .connRefused, [], 3⟩ :=
  registerNode_bounded_retry [] (fun _ => none) 3 ⟨2, "b"⟩
    (fun _ => rfl) (by omega)

/-- C10: `RegisterNode` always performs exactly `MaxRetryTime` attempts —
there is no early exit on a successful attempt — and the outcome is decided
solely by the final attempt: it returns `ErrConnectionRefused` iff the
`MaxRetryTime`-th attempt fails (even when an earlier attempt succeeded),
and when the final attempt succeeds the peer is registered with the client
obtained on that final attempt. -/
theorem registerNode_last_attempt_decides (reg : Registry)
    (attempt : Nat → Option Client) (maxR : Nat) (info : NodeInfo)
    (hpos : 1 ≤ maxR) :
    (registerNode reg attempt maxR info).attempts = maxR
      ∧ ((registerNode reg attempt maxR info).outcome = .error .connRefused
          ↔ attempt maxR = none)
      ∧ (∀ c, attempt maxR = some c →
          registerNode reg attempt maxR info
              = ⟨.ok (some c), addPeer reg ⟨info.id, info.addr, some c⟩, maxR⟩
            ∧ lookupPeer (registerNode reg attempt maxR info).registry info.id
              = some ⟨info.id, info.addr, some c⟩) := by
  have h := regLoopAux_spec attempt maxR maxR 1 none hpos (by omega)
  cases hlast : attempt maxR with
  | none =>
      rw [hlast] at h
      have hreg : registerNode reg attempt maxR info
          = ⟨.error .connRefused, reg, maxR⟩ := by
        simp only [registerNode, regLoop, h]
      rw [hreg]
      refine ⟨rfl, by simp [hlast], ?_⟩
      intro c hc
      exact absurd hc (by simp)
  | some c0 =>
      rw [hlast] at h
      have hreg : registerNode reg attempt maxR info
          = ⟨.ok (some c0), addPeer reg ⟨info.id, info.addr, some c0⟩, maxR⟩ := by
        simp only [registerNode, regLoop, h]
      rw [hreg]
      refine ⟨rfl, by simp [hlast], ?_⟩
      intro c hc
      injection hc with hc
      subst hc
      exact ⟨rfl, by simp [lookupPeer, addPeer]⟩

theorem registerNode_last_attempt_decides_witness :
    (registerNode [] (fun i => if i = 1 then some 7 else none) 3 ⟨2, "b"⟩).attempts = 3
      ∧ (registerNode [] (fun i => if i = 1 then some 7 else none) 3 ⟨2, "b"⟩).outcome
          = .error .connRefused := by
  have h := registerNode_last_attempt_decides []
    (fun i => if i = 1 then some 7 else none) 3 ⟨2, "b"⟩ (by omega)
  exact ⟨h.1, h.2.1.mpr rfl⟩

/-! ## C6, C7: the message router -/

theorem lookupPeer_removePeer_self (reg : Registry) (i : Nat) :
    lookupPeer (removePeer reg i) i = none := by
  simp only [lookupPeer, removePeer]
  rw [List.find?_eq_none]
  intro p hp
  have h := (List.mem_filter.mp hp).2
  simp at h ⊢
  exact h

theorem lookupPeer_removePeer_other (reg : Registry) (i q : Nat)
    (hne : q ≠ i) :
    lookupPeer (removePeer reg i) q = lookupPeer reg q := by
  induction reg with
  | nil => rfl
  | cons p reg ih =>
      by_cases hpi : p.id = i
      · have hpq : (p.id == q) = false := by
          simp [hpi]
          omega
        simp only [removePeer, List.filter_cons, hpi] at ih ⊢
        simp only [lookupPeer, List.find?_cons, hpq] at ih ⊢
        simpa using ih
      · simp only [removePeer, List.filter_cons] at ih ⊢
        simp only [show (!(p.id == i)) = true by simp [hpi], if_pos]
        simp only [lookupPeer, List.find?_cons] at ih ⊢
        cases hpq : (p.id == q) with
        | true => rfl
        | false => exact ih

/-- C7: the router's per-message dispatch decision (node.go:286-307).
A message addressed to the local identity is handed to the local `Step` and
nothing else — in particular, the same happens for any registry contents, so
no registry lookup is involved, and the state is unchanged.  A message to a
destination absent from the Cluster registry is dropped silently (no trace,
no state change).  A message to a registered peer goes out via the remote
`Send`. -/
theorem send_routing_decision (sendOk : Nat → Msg → Bool) (st : NodeState)
    (m : Msg) :
    (m.dest = st.id →
        sendOne sendOk st m = (st, [.stepLocal m])
          ∧ ∀ st' : NodeState, st'.id = st.id →
              (sendOne sendOk st' m).2 = [.stepLocal m])
      ∧ (m.dest ≠ st.id → lookupPeer st.registry m.dest = none →
          sendOne sendOk st m = (st, []))
      ∧ (∀ p, m.dest ≠ st.id → lookupPeer st.registry m.dest = some p →
          ((sendOne sendOk st m).2).head? = some (.remoteSend p.id m)) := by
  refine ⟨?_, ?_, ?_⟩
  · intro hself
    constructor
    · simp [sendOne, hself]
    · intro st' hid
      simp [sendOne, hself, hid]
  · intro hne hnone
    simp [sendOne, if_neg hne, hnone]
  · intro p hne hsome
    simp only [sendOne, if_neg hne, hsome]
    cases sendOk p.id m <;> simp

theorem send_routing_decision_witness :
    sendOne (fun _ _ => true)
        ⟨1, false, ⟨[], none, none⟩, [⟨2, "b", some 5⟩], []⟩ ⟨1, 0⟩
      = (⟨1, false, ⟨[], none, none⟩, [⟨2, "b", some 5⟩], []⟩, [.stepLocal ⟨1, 0⟩]) := by
  have h := send_routing_decision (fun _ _ => true)
    ⟨1, false, ⟨[], none, none⟩, [⟨2, "b", some 5⟩], []⟩ ⟨1, 0⟩
  exact (h.1 rfl).1

/-- C6: when the remote `Send` to the looked-up peer fails, the router closes
the peer's handle, reports it unreachable and removes it — and exactly it —
from the Cluster registry, in that order; the node survives (the local id,
state store and log store are untouched, and the router goes on with the
next message). -/
theorem send_evicts_exactly_failed_peer (sendOk : Nat → Msg → Bool)
    (st : NodeState) (m : Msg) (p : Peer)
    (hne : m.dest ≠ st.id) (hlk : lookupPeer st.registry m.dest = some p)
    (hfail : sendOk p.id m = false) :
    (sendOne sendOk st m).2
        = [.remoteSend p.id m, .closeConn p.id, .reportUnreachable p.id,
           .removeNode p.id]
      ∧ lookupPeer (sendOne sendOk st m).1.registry m.dest = none
      ∧ (∀ q, q ≠ m.dest →
          lookupPeer (sendOne sendOk st m).1.registry q
            = lookupPeer st.registry q)
      ∧ (sendOne sendOk st m).1.id = st.id
      ∧ (sendOne sendOk st m).1.pstore = st.pstore
      ∧ (sendOne sendOk st m).1.log = st.log := by
  have hpid : p.id = m.dest := by
    have := List.find?_some hlk
    simpa using this
  have hstate : sendOne sendOk st m
      = ({ st with registry := removePeer st.registry p.id },
         [.remoteSend p.id m, .closeConn p.id, .reportUnreachable p.id,
          .removeNode p.id]) := by
    simp [sendOne, if_neg hne, hlk, hfail]
  rw [hstate]
  refine ⟨rfl, ?_, ?_, rfl, rfl, rfl⟩
  · rw [hpid]
    exact lookupPeer_removePeer_self st.registry m.dest
  · intro q hq
    rw [hpid]
    exact lookupPeer_removePeer_other st.registry m.dest q hq

theorem send_evicts_exactly_failed_peer_witness :
    (sendOne (fun _ _ => false)
        ⟨1, false, ⟨[], none, none⟩, [⟨2, "b", some 5⟩, ⟨3, "c", some 6⟩], []⟩
        ⟨2, 0⟩).2
        = [.remoteSend 2 ⟨2, 0⟩, .closeConn 2, .reportUnreachable 2,
           .removeNode 2]
      ∧ lookupPeer (sendOne (fun _ _ => false)
          ⟨1, false, ⟨[], none, none⟩, [⟨2, "b", some 5⟩, ⟨3, "c", some 6⟩], []⟩
          ⟨2, 0⟩).1.registry 2 = none
      ∧ lookupPeer (sendOne (fun _ _ => false)
          ⟨1, false, ⟨[], none, none⟩, [⟨2, "b", some 5⟩, ⟨3, "c", some 6⟩], []⟩
          ⟨2, 0⟩).1.registry 3
          = lookupPeer [⟨2, "b", some 5⟩, ⟨3, "c", some 6⟩] 3 := by
  have h := send_evicts_exactly_failed_peer (fun _ _ => false)
    ⟨1, false, ⟨[], none, none⟩, [⟨2, "b", some 5⟩, ⟨3, "c", some 6⟩], []⟩
    ⟨2, 0⟩ ⟨2, "b", some 5⟩ (by decide) (by rfl) rfl
  exact ⟨h.1, h.2.1, h.2.2.1 3 (by decide)⟩

/-! ## C1: batch processing order -/

theorem saveToStorage_persist (st : NodeState) (rd : Ready) :
    ∀ a ∈ (saveToStorage st rd).2, isPersist a = true := by
  simp only [saveToStorage]
  cases rd.hardState <;> cases rd.snapshot <;> simp [isPersist]

theorem sendOne_dispatch (sendOk : Nat → Msg → Bool) (st : NodeState)
    (m : Msg) :
    ∀ a ∈ (sendOne sendOk st m).2, isDispatch a = true := by
  simp only [sendOne]
  by_cases h : m.dest = st.id
  · simp [h, isDispatch]
  · simp only [if_neg h]
    cases lookupPeer st.registry m.dest with
    | none => simp
    | some p => cases hok : sendOk p.id m <;> simp [hok, isDispatch]

theorem sendAll_dispatch (sendOk : Nat → Msg → Bool) (st : NodeState)
    (ms : List Msg) :
    ∀ a ∈ (sendAll sendOk st ms).2, isDispatch a = true := by
  induction ms generalizing st with
  | nil => simp [sendAll]
  | cons m ms ih =>
      simp only [sendAll, List.mem_append]
      intro a ha
      rcases ha with ha | ha
      · exact sendOne_dispatch sendOk st m a ha
      · exact ih _ a ha

theorem process_ok_of_entryOk (e : Entry) (he : entryOk e = true)
    (nid : Nat) (dbg : Bool) (s : Store) :
    ∃ s', process nid dbg s e = .ok s' := by
  cases e with
  | mk ty dt =>
      cases ty with
      | confChange => exact ⟨s, rfl⟩
      | normal =>
          cases dt with
          | none => exact ⟨s, rfl⟩
          | some d =>
              simp only [entryOk, Option.isSome_iff_exists] at he
              obtain ⟨pair, hpair⟩ := he
              exact ⟨storeSet s pair.key pair.value, by simp [process, hpair]⟩

theorem processCommitted_spec (es : List Entry) :
    ∀ st : NodeState, es.all entryOk = true →
      ∃ st' : NodeState,
        (processCommitted st es).1 = .ok st'
          ∧ (∀ a ∈ (processCommitted st es).2, isApply a = true)
          ∧ appliedEntries (processCommitted st es).2 = es := by
  induction es with
  | nil =>
      intro st _
      exact ⟨st, rfl, by simp [processCommitted], by simp [processCommitted, appliedEntries]⟩
  | cons e es ih =>
      intro st hall
      rw [List.all_cons, Bool.and_eq_true] at hall
      obtain ⟨ps, hps⟩ :=
        process_ok_of_entryOk e hall.1 st.id st.debug st.pstore
      obtain ⟨st', h1, h2, h3⟩ := ih { st with pstore := ps } hall.2
      refine ⟨st', ?_, ?_, ?_⟩
      · simp only [processCommitted, hps]
        exact h1
      · simp only [processCommitted, hps]
        intro a ha
        simp only [List.mem_cons, List.mem_append] at ha
        rcases ha with rfl | ha
        · rfl
        rcases ha with ha | ha
        · by_cases hty : e.type = .confChange
          · simp only [if_pos hty, List.mem_singleton] at ha
            subst ha
            rfl
          · simp [if_neg hty] at ha
        · exact h2 a ha
      · have h3' : List.filterMap
            (fun a => match a with | Action.applyEntry e => some e | _ => none)
            (processCommitted { st with pstore := ps } es).2 = es := h3
        by_cases hty : e.type = .confChange <;>
          simp [processCommitted, hps, appliedEntries, List.filterMap_cons,
            List.filterMap_append, hty, h3']

/-- C1: for a batch taken from the ready channel, the event loop emits its
actions strictly in the order persist → dispatch → apply-commits → advance:
the trace decomposes as a persistence phase, a dispatch phase, and an
application phase that applies exactly the supplied committed entries in
their order, followed by `Advance` as the very last action; and the loop
processes a subsequent batch only after this whole trace — in particular
only after the `Advance` — is done.  (Stated for surviving batches: an empty
snapshot and decodable committed entries; a non-empty snapshot kills the
node in `processSnapshot`, see the C3 theorem.) -/
theorem batch_order (sendOk : Nat → Msg → Bool) (st : NodeState) (rd : Ready)
    (hsnap : rd.snapshot = none)
    (hdec : rd.committedEntries.all entryOk = true) :
    ∃ (st' : NodeState) (tP tS tA : Trace),
      handleReady sendOk st rd = (.ok st', tP ++ tS ++ tA ++ [.advance])
        ∧ (∀ a ∈ tP, isPersist a = true)
        ∧ (∀ a ∈ tS, isDispatch a = true)
        ∧ (∀ a ∈ tA, isApply a = true)
        ∧ appliedEntries tA = rd.committedEntries
        ∧ ∀ rds, runAll sendOk st (rd :: rds)
            = ((runAll sendOk st' rds).1,
               (tP ++ tS ++ tA ++ [.advance]) ++ (runAll sendOk st' rds).2) := by
  obtain ⟨st', h1, h2, h3⟩ :=
    processCommitted_spec rd.committedEntries
      (sendAll sendOk (saveToStorage st rd).1 rd.messages).1 hdec
  have hHR : handleReady sendOk st rd
      = (.ok st',
         (saveToStorage st rd).2
           ++ (sendAll sendOk (saveToStorage st rd).1 rd.messages).2
           ++ (processCommitted
                (sendAll sendOk (saveToStorage st rd).1 rd.messages).1
                rd.committedEntries).2
           ++ [.advance]) := by
    simp only [handleReady, hsnap, h1]
  refine ⟨st', _, _, _, hHR, saveToStorage_persist st rd,
    sendAll_dispatch sendOk _ rd.messages, h2, h3, ?_⟩
  intro rds
  simp only [runAll, hHR]

theorem batch_order_witness :
    ∃ (st' : NodeState) (tP tS tA : Trace),
      handleReady (fun _ _ => true)
          ⟨1, false, ⟨[], none, none⟩, [⟨2, "b", some 5⟩], []⟩
          ⟨some 7, [mkNormalEntry [1] [2], mkNormalEntry [3] [4]], none,
           [⟨2, 9⟩], [mkNormalEntry [1] [2], mkNormalEntry [3] [4]]⟩
        = (.ok st', tP ++ tS ++ tA ++ [.advance])
        ∧ (∀ a ∈ tP, isPersist a = true)
        ∧ (∀ a ∈ tS, isDispatch a = true)
        ∧ (∀ a ∈ tA, isApply a = true)
        ∧ appliedEntries tA
            = [mkNormalEntry [1] [2], mkNormalEntry [3] [4]] := by
  obtain ⟨st', tP, tS, tA, h1, h2, h3, h4, h5, _⟩ :=
    batch_order (fun _ _ => true)
      ⟨1, false, ⟨[], none, none⟩, [⟨2, "b", some 5⟩], []⟩
      ⟨some 7, [mkNormalEntry [1] [2], mkNormalEntry [3] [4]], none,
       [⟨2, 9⟩], [mkNormalEntry [1] [2], mkNormalEntry [3] [4]]⟩
      rfl (by decide)
  exact ⟨st', tP, tS, tA, h1, h2, h3, h4, h5⟩

/-! ## C3: snapshot handling -/

/-- C3: the code does **not** install a ready batch's non-empty snapshot into
the Application State Store — `processSnapshot` (node.go:311-314) is an
unimplemented stub that panics, killing the node right after the persist and
dispatch phases; no commit is applied, no advance happens, and the node does
not keep running.  (The spec mandates a real install, see §9: this is the
documented defect of the reference code.) -/
theorem snapshot_stub_panics :
    handleReady (fun _ _ => true) ⟨1, false, ⟨[], none, none⟩, [], []⟩
        ⟨none, [], some 42, [], []⟩
      = (.error .snapshotPanic,
         [.appendEntries [], .applyLogSnapshot 42, .panicSnapshot]) := by
  rfl

/-! ## C4: JoinCluster -/

theorem jcLoop_all_ok (selfID : Nat) (addNode : Nat → AddRes) :
    ∀ (ps : List Peer) (acc : List NodeInfo),
      (∀ p ∈ ps, p.id ≠ selfID →
        (addNode p.id).err = false ∧ (addNode p.id).success = true) →
      (jcLoop selfID addNode ps acc).2.1 = none
        ∧ (jcLoop selfID addNode ps acc).2.2
            = (ps.filter (fun p => p.id != selfID)).map
                (fun p => JoinAction.calledAddNode p.id) := by
  intro ps
  induction ps with
  | nil => intro acc _; exact ⟨rfl, rfl⟩
  | cons p ps ih =>
      intro acc hok
      by_cases hself : p.id = selfID
      · have := ih (acc ++ [⟨p.id, p.addr⟩])
          (fun q hq hqne => hok q (List.mem_cons_of_mem p hq) hqne)
        simp only [jcLoop, if_pos hself, List.filter_cons,
          show (p.id != selfID) = false by simp [hself]]
        exact this
      · obtain ⟨herr, hsucc⟩ := hok p (List.mem_cons_self p ps) hself
        have hcond : ¬((addNode p.id).err = true ∨ ¬(addNode p.id).success = true) := by
          simp [herr, hsucc]
        have := ih (acc ++ [⟨p.id, p.addr⟩])
          (fun q hq hqne => hok q (List.mem_cons_of_mem p hq) hqne)
        simp only [jcLoop, if_neg hself, if_neg hcond, List.filter_cons,
          show (p.id != selfID) = true by simp [hself], List.map_cons]
        exact ⟨this.1, by rw [this.2]; simp⟩

theorem jcLoop_first_failure (selfID : Nat) (addNode : Nat → AddRes)
    (bad : Peer) (hbad : bad.id ≠ selfID)
    (hfailure : (addNode bad.id).err = true ∨ (addNode bad.id).success = false) :
    ∀ (pre rest : List Peer) (acc : List NodeInfo),
      (∀ p ∈ pre, p.id ≠ selfID →
        (addNode p.id).err = false ∧ (addNode p.id).success = true) →
      (jcLoop selfID addNode (pre ++ bad :: rest) acc).2.1
          = some (addNode bad.id).errorMsg
        ∧ (jcLoop selfID addNode (pre ++ bad :: rest) acc).2.2
            = (pre.filter (fun p => p.id != selfID)).map
                (fun p => JoinAction.calledAddNode p.id)
              ++ [JoinAction.calledAddNode bad.id] := by
  intro pre
  induction pre with
  | nil =>
      intro rest acc _
      have hcond : (addNode bad.id).err = true ∨ ¬(addNode bad.id).success = true := by
        rcases hfailure with h | h
        · exact Or.inl h
        · exact Or.inr (by simp [h])
      simp only [List.nil_append, jcLoop, if_neg hbad, if_pos hcond,
        List.filter_nil, List.map_nil, List.nil_append]
      exact ⟨by trivial, by trivial⟩
  | cons p pre ih =>
      intro rest acc hok
      by_cases hself : p.id = selfID
      · have := ih rest (acc ++ [⟨p.id, p.addr⟩])
          (fun q hq hqne => hok q (List.mem_cons_of_mem p hq) hqne)
        simp only [List.cons_append, jcLoop, if_pos hself, List.filter_cons,
          show (p.id != selfID) = false by simp [hself]]
        exact this
      · obtain ⟨herr, hsucc⟩ := hok p (List.mem_cons_self p pre) hself
        have hcond : ¬((addNode p.id).err = true ∨ ¬(addNode p.id).success = true) := by
          simp [herr, hsucc]
        have := ih rest (acc ++ [⟨p.id, p.addr⟩])
          (fun q hq hqne => hok q (List.mem_cons_of_mem p hq) hqne)
        simp only [List.cons_append, jcLoop, if_neg hself, if_neg hcond,
          List.filter_cons, show (p.id != selfID) = true by simp [hself],
          List.map_cons, List.cons_append]
        refine ⟨this.1, ?_⟩
        rw [show (pre.append (bad :: rest)) = pre ++ bad :: rest from rfl,
          this.2]
        simp

/-- C4: `JoinCluster` calls the remote `AddNode` of every other known peer
(excluding itself, in registry order); the local registration of the new
peer happens only at the very end, after all those peers acknowledged.  If
any peer's `AddNode` call errors or its response reports failure, the loop
aborts at that peer — no later peer is called, the new peer is not
registered, the registry is unchanged — and the caller gets a failure
response carrying that peer's reported error. -/
theorem joinCluster_protocol (st : NodeState) (addNode : Nat → AddRes)
    (attempt : Nat → Option Client) (maxR : Nat) (info : NodeInfo) :
    ((∀ p ∈ st.registry, p.id ≠ st.id →
        (addNode p.id).err = false ∧ (addNode p.id).success = true) →
      (joinCluster st addNode attempt maxR info).2.2
        = (st.registry.filter (fun p => p.id != st.id)).map
            (fun p => JoinAction.calledAddNode p.id)
          ++ (match (registerNode st.registry attempt maxR info).outcome with
              | .ok _ => [JoinAction.registeredLocally]
              | .error _ => []))
      ∧ (∀ pre bad rest,
          st.registry = pre ++ bad :: rest →
          bad.id ≠ st.id →
          (∀ p ∈ pre, p.id ≠ st.id →
            (addNode p.id).err = false ∧ (addNode p.id).success = true) →
          ((addNode bad.id).err = true ∨ (addNode bad.id).success = false) →
          (joinCluster st addNode attempt maxR info).1.success = false
            ∧ (joinCluster st addNode attempt maxR info).1.error
                = (addNode bad.id).errorMsg
            ∧ (joinCluster st addNode attempt maxR info).2.1 = st.registry
            ∧ (joinCluster st addNode attempt maxR info).2.2
                = (pre.filter (fun p => p.id != st.id)).map
                    (fun p => JoinAction.calledAddNode p.id)
                  ++ [JoinAction.calledAddNode bad.id]) := by
  constructor
  · intro hok
    obtain ⟨hnone, htrace⟩ := jcLoop_all_ok st.id addNode st.registry [] hok
    simp only [joinCluster, hnone]
    cases hreg : (registerNode st.registry attempt maxR info).outcome with
    | error e => simpa using htrace
    | ok c => simpa using htrace
  · intro pre bad rest hsplit hbad hok hfailure
    obtain ⟨hsome, htrace⟩ :=
      jcLoop_first_failure st.id addNode bad hbad hfailure pre rest [] hok
    rw [← hsplit] at hsome htrace
    simp only [joinCluster, hsome]
    exact ⟨by trivial, by trivial, by trivial, htrace⟩

theorem joinCluster_protocol_witness :
    (joinCluster
        ⟨1, false, ⟨[], none, none⟩,
         [⟨1, "a", none⟩, ⟨2, "b", some 5⟩, ⟨3, "c", some 6⟩], []⟩
        (fun i => if i = 2 then ⟨false, true, ""⟩ else ⟨false, false, "boom"⟩)
        (fun _ => none) 3 ⟨4, "d"⟩).1.success = false
      ∧ (joinCluster
          ⟨1, false, ⟨[], none, none⟩,
           [⟨1, "a", none⟩, ⟨2, "b", some 5⟩, ⟨3, "c", some 6⟩], []⟩
          (fun i => if i = 2 then ⟨false, true, ""⟩ else ⟨false, false, "boom"⟩)
          (fun _ => none) 3 ⟨4, "d"⟩).1.error = "boom"
      ∧ (joinCluster
          ⟨1, false, ⟨[], none, none⟩,
           [⟨1, "a", none⟩, ⟨2, "b", some 5⟩, ⟨3, "c", some 6⟩], []⟩
          (fun i => if i = 2 then ⟨false, true, ""⟩ else ⟨false, false, "boom"⟩)
          (fun _ => none) 3 ⟨4, "d"⟩).2.2
        = [.calledAddNode 2, .calledAddNode 3] := by
  have h := (joinCluster_protocol
      ⟨1, false, ⟨[], none, none⟩,
       [⟨1, "a", none⟩, ⟨2, "b", some 5⟩, ⟨3, "c", some 6⟩], []⟩
      (fun i => if i = 2 then ⟨false, true, ""⟩ else ⟨false, false, "boom"⟩)
      (fun _ => none) 3 ⟨4, "d"⟩).2
      [⟨1, "a", none⟩, ⟨2, "b", some 5⟩] ⟨3, "c", some 6⟩ [] rfl
      (by decide) (by decide) (by decide)
  refine ⟨h.1, ?_, ?_⟩
  · have := h.2.1
    simpa using this
  · have := h.2.2.2
    simpa using this

end Proton
